import Mathlib

/-!
Verification development for the `wanga` schema subsystem
(`wanga/schema/normalize.py`, `wanga/schema/schema.py`,
`wanga/schema/jsonschema.py`).

The Python code is shallowly embedded:

* Python runtime values that can appear as JSON input or evaluation output
  are modelled by `PyVal`.  Python `float` payloads are modelled as exact
  rationals (the code never performs float arithmetic; only `float(int)`
  widening occurs, which is modelled exactly).
* Python type annotations, as consumed by `normalize_annotation`, are
  modelled by `PyAnn` together with models of the host-language helpers
  `typing.get_origin` / `typing.get_args`, the `|` operator on types, and
  subscription `origin[args]` (CPython 3.11 semantics: `typing.Union` and
  `types.UnionType` both flatten nested unions and de-duplicate arms
  keeping the first occurrence; `typing.Literal` de-duplicates its
  arguments; `types.UnionType` is not subscriptable).
* Schema nodes are the inductive `SchemaNode`; evaluation and JSON-schema
  projection return `Except Err _` where `Err` distinguishes
  `SchemaValidationError` payloads from `UnsupportedSchemaError` (and the
  `AttributeError` reachable in `UnionNode.json_schema`).
-/

namespace Wanga

/-- Scalar constants: the values allowed in `LiteralNode.options`
(`list[int | float | str | bool]`) and as `typing.Literal` arguments.
Python distinguishes `True` from `1` inside `Literal` (de-duplication is
type-aware), which the separate constructors model. -/
inductive PyLit where
  | int (n : Int)
  | float (q : ℚ)
  | str (s : String)
  | bool (b : Bool)
deriving DecidableEq, Repr

/-- Python runtime values: JSON input values (`None`, `bool`, `int`,
`float`, `str`, `list`, `dict` with string keys) plus the native values
evaluation can produce (`tuple` from `TupleNode.eval`; constructor results
are again `PyVal`). Dicts are insertion-ordered key/value lists, mirroring
CPython dicts. -/
inductive PyVal where
  | none
  | bool (b : Bool)
  | int (n : Int)
  | float (q : ℚ)
  | str (s : String)
  | list (xs : List PyVal)
  | tuple (xs : List PyVal)
  | dict (kvs : List (String × PyVal))

instance : Inhabited PyVal := ⟨PyVal.none⟩

/-- The four primitive types a `PrimitiveNode` can carry
(`type[int] | type[float] | type[str] | type[bool]`). -/
inductive PrimType where
  | int
  | float
  | str
  | bool
deriving DecidableEq, Repr

/-- `isinstance(value, t)` for the primitive types.  `bool` is a subclass
of `int` in Python, so a boolean is an instance of `int`; it is not an
instance of `float`. -/
def pyIsInstance (v : PyVal) (t : PrimType) : Bool :=
  match t, v with
  | .int, .int _ => true
  | .int, .bool _ => true
  | .bool, .bool _ => true
  | .float, .float _ => true
  | .str, .str _ => true
  | _, _ => false

/-- `float(value)` for a value that `isinstance(value, int)` accepts:
an integer converts to its exact value, a boolean to `1.0` / `0.0`. -/
def pyToFloat (v : PyVal) : ℚ :=
  match v with
  | .int n => (n : ℚ)
  | .bool b => if b then 1 else 0
  | .float q => q
  | _ => 0

/-- The numeric value of a Python scalar, if it is numeric
(`bool`/`int`/`float` compare by numeric value under `==`). -/
def valNum? (v : PyVal) : Option ℚ :=
  match v with
  | .bool b => some (if b then 1 else 0)
  | .int n => some (n : ℚ)
  | .float q => some q
  | _ => Option.none

/-- The numeric value of a literal option, if numeric. -/
def litNum? (l : PyLit) : Option ℚ :=
  match l with
  | .bool b => some (if b then 1 else 0)
  | .int n => some (n : ℚ)
  | .float q => some q
  | _ => Option.none

/-- Python `==` between a runtime value and a literal option: numeric
values compare by value across `bool`/`int`/`float`; strings compare by
content; any other combination is unequal. -/
def pyEqLit (v : PyVal) (l : PyLit) : Bool :=
  match valNum? v, litNum? l with
  | some a, some b => a = b
  | _, _ =>
    match v, l with
    | .str s, .str s' => s = s'
    | _, _ => false

end Wanga

namespace Wanga

/-! ## Annotation model (for `normalize.py`) -/

/-- Python classes that can occur as an annotation or as the origin of a
generic alias.  Includes the builtin containers, the `collections.abc`
abstract classes appearing in `ABSTRACT_TO_CONCRETE`, `NoneType`,
`typing.Any` (which has no origin and passes through `normalize`), and
arbitrary user classes. -/
inductive PyClass where
  | int
  | float
  | str
  | bool
  | noneType
  | anyType
  | list
  | dict
  | set
  | frozenset
  | tuple
  | bytes
  | absSet
  | absByteString
  | absMapping
  | absMutableMapping
  | absMutableSequence
  | absMutableSet
  | absSequence
  | absMappingView
  | absValuesView
  | absKeysView
  | absIterable
  | absIterator
  | absContainer
  | absCollection
  | absSized
  | absReversible
  | user (name : String)
deriving DecidableEq, Repr

/-- Python type annotations as first-class runtime objects, in the shapes
`normalize_annotation` dispatches on:

* `cls` — a bare class (`get_origin` is `None`);
* `lit` — a constant appearing as a `typing.Literal` argument
  (`get_origin` is `None`);
* `genAlias c args` — a subscripted generic `c[args]` (`list[int]`,
  `collections.abc.Sequence[int]`, …); a bare alias such as `typing.List`
  is `genAlias .list []` (origin `list`, empty args);
* `typingUnion args` — a `typing.Union[...]` object;
* `unionType args` — a PEP-604 `a | b` object (`types.UnionType`);
* `literal args` — `typing.Literal[...]` (its `get_args` are the stored
  constants);
* `annotated args` — `typing.Annotated[...]`; `get_args` returns the
  stored tuple whose first element is the wrapped type. -/
inductive PyAnn where
  | cls (c : PyClass)
  | lit (v : PyLit)
  | genAlias (origin : PyClass) (args : List PyAnn)
  | typingUnion (args : List PyAnn)
  | unionType (args : List PyAnn)
  | literal (args : List PyAnn)
  | annotated (args : List PyAnn)

/-- Possible results of `typing.get_origin`: a class, `typing.Union`,
`types.UnionType`, `typing.Literal`, or `typing.Annotated`. -/
inductive POrigin where
  | ocls (c : PyClass)
  | oUnion
  | oUnionType
  | oLiteral
  | oAnnotated
deriving DecidableEq, Repr

/-- `typing.get_origin`. -/
def getOrigin (a : PyAnn) : Option POrigin :=
  match a with
  | .cls _ => Option.none
  | .lit _ => Option.none
  | .genAlias c _ => some (.ocls c)
  | .typingUnion _ => some .oUnion
  | .unionType _ => some .oUnionType
  | .literal _ => some .oLiteral
  | .annotated _ => some .oAnnotated

/-- `typing.get_args`. -/
def getArgs (a : PyAnn) : List PyAnn :=
  match a with
  | .cls _ => []
  | .lit _ => []
  | .genAlias _ as => as
  | .typingUnion as => as
  | .unionType as => as
  | .literal as => as
  | .annotated as => as

mutual

/-- Python `==` on annotation objects: `typing` generic aliases compare by
origin and argument tuple, classes and constants by identity/value. -/
def pyAnnBeq (a b : PyAnn) : Bool :=
  match a, b with
  | .cls c, .cls d => c == d
  | .lit v, .lit w => v == w
  | .genAlias c as, .genAlias d bs => c == d && pyAnnListBeq as bs
  | .typingUnion as, .typingUnion bs => pyAnnListBeq as bs
  | .unionType as, .unionType bs => pyAnnListBeq as bs
  | .literal as, .literal bs => pyAnnListBeq as bs
  | .annotated as, .annotated bs => pyAnnListBeq as bs
  | _, _ => false
termination_by (sizeOf a, 1)

/-- Pointwise `==` on argument tuples. -/
def pyAnnListBeq (l1 l2 : List PyAnn) : Bool :=
  match l1, l2 with
  | [], [] => true
  | a :: as, b :: bs => pyAnnBeq a b && pyAnnListBeq as bs
  | _, _ => false
termination_by (sizeOf l1, 0)

end

/-- De-duplication keeping the first occurrence of each element under the
given equality, as CPython's `typing._deduplicate` and `types.UnionType`
do (membership is decided with `==`). -/
def dedupFirstGo {α : Type} (beq : α → α → Bool) (seen : List α) : List α → List α
  | [] => []
  | a :: rest =>
    if seen.any (beq a) then dedupFirstGo beq seen rest
    else a :: dedupFirstGo beq (a :: seen) rest

/-- De-duplication keeping first occurrences. -/
def dedupFirst {α : Type} (beq : α → α → Bool) (l : List α) : List α :=
  dedupFirstGo beq [] l

/-- The arms an annotation contributes when it appears as a union
parameter: both `typing.Union` and `types.UnionType` are flattened one
level (`typing._remove_dups_flatten` / `union_or`). -/
def unionArms (a : PyAnn) : List PyAnn :=
  match a with
  | .typingUnion as => as
  | .unionType as => as
  | _ => [a]

/-- Construction of `typing.Union[params]`: flatten nested unions,
de-duplicate keeping first occurrences, and collapse a singleton to its
only arm. -/
def mkUnion (params : List PyAnn) : PyAnn :=
  match dedupFirst pyAnnBeq (params.flatMap unionArms) with
  | [a] => a
  | arms => .typingUnion arms

/-- Construction of a PEP-604 union (`types.UnionType`): same flattening,
de-duplication and singleton collapse. -/
def mkUnionType (params : List PyAnn) : PyAnn :=
  match dedupFirst pyAnnBeq (params.flatMap unionArms) with
  | [a] => a
  | arms => .unionType arms

/-- The arguments an annotation contributes inside `typing.Literal[...]`:
nested `Literal`s are flattened. -/
def literalArms (a : PyAnn) : List PyAnn :=
  match a with
  | .literal as => as
  | _ => [a]

/-- Construction of `typing.Literal[params]`: flatten nested literals and
de-duplicate (type-aware) keeping first occurrences. -/
def mkLiteral (params : List PyAnn) : PyAnn :=
  .literal (dedupFirst pyAnnBeq (params.flatMap literalArms))

/-- Whether `a | b` with this operand goes through
`typing._GenericAlias.__or__` (producing `typing.Union`) rather than the
C-level `union_or` (producing `types.UnionType`).  `typing` objects —
`Union`, `Literal`, `Annotated` — are not "unionable" at the C level. -/
def isTypingForm (a : PyAnn) : Bool :=
  match a with
  | .typingUnion _ => true
  | .literal _ => true
  | .annotated _ => true
  | _ => false

/-- The Python `|` operator on annotations: if either operand is a
`typing` form the result is `typing.Union[a, b]`, otherwise it is the
PEP-604 `types.UnionType`.  (In `_fold_or` the operands are already
normalized, so generic aliases are builtin `types.GenericAlias` values,
which take the PEP-604 path.) -/
def pyOr (a b : PyAnn) : PyAnn :=
  if isTypingForm a || isTypingForm b then mkUnion [a, b]
  else mkUnionType [a, b]

/-- `normalize._fold_or`: left fold of `|` over the sequence;
`annotations[0]` raises `IndexError` on an empty sequence. -/
def foldOr (anns : List PyAnn) : Except String PyAnn :=
  match anns with
  | [] => .error "IndexError: list index out of range"
  | a :: rest => .ok (rest.foldl pyOr a)

/-- `normalize.ABSTRACT_TO_CONCRETE` as a function: abstract container
classes map to their concrete counterpart, every other class to itself. -/
def concretizeClass (c : PyClass) : PyClass :=
  match c with
  | .absSet => .set
  | .absByteString => .bytes
  | .absMapping => .dict
  | .absMutableMapping => .dict
  | .absMutableSequence => .list
  | .absMutableSet => .set
  | .absSequence => .list
  | .absMappingView => .dict
  | .absValuesView => .list
  | .absKeysView => .list
  | .absIterable => .list
  | .absIterator => .list
  | .absContainer => .list
  | .absCollection => .list
  | .absSized => .list
  | .absReversible => .list
  | c => c

/-- `ABSTRACT_TO_CONCRETE.get(origin, origin)`: only class origins are
keys of the table. -/
def concretizeOrigin (o : POrigin) : POrigin :=
  match o with
  | .ocls c => .ocls (concretizeClass c)
  | o => o

/-- Subscription `origin[tuple(args)]` as performed by
`normalize_annotation`: a class origin rebuilds a generic alias;
`typing.Union[...]` rebuilds a (flattened, de-duplicated) union;
`types.UnionType` is **not subscriptable** in CPython ≤ 3.13 and raises
`TypeError`; `typing.Literal[...]` rebuilds a (flattened, de-duplicated)
literal; `typing.Annotated` cannot reach this line (it returns earlier). -/
def pySubscript (o : POrigin) (args : List PyAnn) : Except String PyAnn :=
  match o with
  | .ocls c => .ok (.genAlias c args)
  | .oUnion => .ok (mkUnion args)
  | .oUnionType => .error "TypeError: type types.UnionType is not subscriptable"
  | .oLiteral => .ok (mkLiteral args)
  | .oAnnotated => .ok (.annotated args)

/-- `return origin` for an origin with no arguments: only class origins
(e.g. bare `typing.List`, whose origin is `list`) reach this line. -/
def originAsAnn (o : POrigin) : Except String PyAnn :=
  match o with
  | .ocls c => .ok (.cls c)
  | _ => .error "unreachable: special-form origin with no arguments"

mutual

/-- `normalize.normalize_annotation(annotation, concretize)`:

```
origin = get_origin(annotation); args = get_args(annotation)
if origin is None: return annotation
if args: args = tuple(normalize_annotation(arg, concretize) for arg in args)
if origin is Annotated: return args[0]
if origin is Union: return _fold_or(args)
if concretize: origin = ABSTRACT_TO_CONCRETE.get(origin, origin)
if args: return origin[args]
return origin
```

The `origin is Union` test is an identity test against `typing.Union`
only; a PEP-604 union's origin is `types.UnionType` and falls through to
the subscription line. -/
def normalizeAnn (c : Bool) (ann : PyAnn) : Except String PyAnn :=
  match h : getOrigin ann with
  | Option.none => .ok ann
  | some o => do
    let nargs ← normalizeListAnn c (getArgs ann)
    if o = POrigin.oAnnotated then
      match nargs with
      | a0 :: _ => .ok a0
      | [] => .error "IndexError: tuple index out of range"
    else if o = POrigin.oUnion then
      foldOr nargs
    else
      let o' := if c then concretizeOrigin o else o
      if nargs.isEmpty then originAsAnn o' else pySubscript o' nargs
termination_by (sizeOf ann, 1)
decreasing_by
  cases ann <;> simp_all [getOrigin, getArgs] <;> omega

/-- Pointwise normalization of an argument tuple (the generator inside
`tuple(normalize_annotation(arg, concretize) for arg in args)`). -/
def normalizeListAnn (c : Bool) (l : List PyAnn) : Except String (List PyAnn) :=
  match l with
  | [] => .ok []
  | a :: rest => do
    let na ← normalizeAnn c a
    let nrest ← normalizeListAnn c rest
    .ok (na :: nrest)
termination_by (sizeOf l, 0)
decreasing_by
  all_goals simp <;> omega

end

/-! ## Schema node model (`schema.py`) -/

mutual

/-- The closed set of schema-node variants (`schema.py`).  `objectN`
bundles `ObjectNode`: its `constructor_fn` is modelled as a total function
from positional arguments and keyword arguments to a value, and of its
`constructor_signature` the part `ObjectNode.eval` consumes — the set of
`POSITIONAL_ONLY` parameter names — is kept (`posOnly`). -/
inductive SchemaNode where
  | undefined (origAnn : Option PyAnn)
  | primitive (t : PrimType)
  | sequence (sequenceType : PyClass) (itemSchema : SchemaNode)
  | tupleN (tupleType : PyClass) (itemSchemas : List SchemaNode)
  | mapping (mappingType : PyClass) (keySchema : SchemaNode) (valueSchema : SchemaNode)
  | union (options : List (Option SchemaNode))
  | literalN (options : List PyLit)
  | objectN (ctor : List PyVal → List (String × PyVal) → PyVal)
      (posOnly : List String) (name : String)
      (fields : List ObjectField) (hint : Option String)

/-- `ObjectField`: name, schema, optional hint, required flag. -/
inductive ObjectField where
  | mk (name : String) (schema : SchemaNode) (hint : Option String) (required : Bool)

end

/-- Field accessor: `name`. -/
def ObjectField.name : ObjectField → String
  | .mk n _ _ _ => n

/-- Field accessor: `schema`. -/
def ObjectField.schema : ObjectField → SchemaNode
  | .mk _ s _ _ => s

/-- Field accessor: `hint`. -/
def ObjectField.hint : ObjectField → Option String
  | .mk _ _ h _ => h

/-- Field accessor: `required`. -/
def ObjectField.required : ObjectField → Bool
  | .mk _ _ _ r => r

/-- Errors raised by evaluation and projection.  `unsupported` models
`UnsupportedSchemaError`; `attributeError` models the `AttributeError`
reachable in `UnionNode.json_schema` when a single-option union holds a
non-primitive node; every other constructor is a `SchemaValidationError`
carrying the data its message interpolates. -/
inductive Err where
  | unsupported (msg : String)
  | attributeError (msg : String)
  | typeMismatch (expected : PrimType) (got : PyVal)
  | expectedList (got : PyVal)
  | tupleLength (expected : Nat) (got : Nat)
  | noOption (value : PyVal) (options : List (Option SchemaNode))
  | literalNoMatch (value : PyVal) (options : List PyLit)
  | expectedObject (got : PyVal)
  | unexpectedField (name : String)
  | missingFields (names : List String)

/-- Whether the error is a `SchemaValidationError` (the only class caught
by `UnionNode.eval`'s `except SchemaValidationError`). -/
def Err.isValidation : Err → Bool
  | .unsupported _ => false
  | .attributeError _ => false
  | _ => true

/-- `isinstance(option, PrimitiveNode)`. -/
def isPrimNode : SchemaNode → Bool
  | .primitive _ => true
  | _ => false

/-- `UnionNode.is_optional`: `None in self.options`. -/
def isOptionalU (opts : List (Option SchemaNode)) : Bool :=
  opts.any Option.isNone

/-- `UnionNode.is_primitive`:

```
if len(self.options) == 1: return True
if len(self.options) == 2 and None in self.options: return True
return all(option is None or isinstance(option, PrimitiveNode)
           for option in self.options)
``` -/
def isPrimitiveU (opts : List (Option SchemaNode)) : Bool :=
  if opts.length = 1 then true
  else if opts.length = 2 && opts.any Option.isNone then true
  else opts.all fun o =>
    match o with
    | Option.none => true
    | some s => isPrimNode s

/-- The schema bound to a key by `{field.name: field.schema for field in
self.fields}`: a dict comprehension binds the *last* field with a given
name (later insertions overwrite earlier ones). -/
def lookupSchemaLast (fields : List ObjectField) (k : String) : Option SchemaNode :=
  match fields with
  | [] => Option.none
  | f :: rest =>
    match lookupSchemaLast rest k with
    | some s => some s
    | Option.none => if f.name = k then some f.schema else Option.none

/-- The seed of `missing_args = {field.name for field in self.fields if
field.required}`: required field names, de-duplicated (set semantics). -/
def missingSeed (fields : List ObjectField) : List String :=
  dedupFirst (fun a b => a = b) ((fields.filter ObjectField.required).map ObjectField.name)

/-- Assignment `d[k] = v` on an insertion-ordered dict: an existing key
keeps its position and gets the new value, a new key is appended. -/
def dictInsert {α : Type} (kvs : List (String × α)) (k : String) (v : α) : List (String × α) :=
  if kvs.any (fun p => p.1 = k) then
    kvs.map (fun p => if p.1 = k then (k, v) else p)
  else kvs ++ [(k, v)]

/-- `value is None`. -/
def isNoneV : PyVal → Bool
  | PyVal.none => true
  | _ => false

mutual

/-- `SchemaNode.eval` (`schema.py`), dispatching on the node variant:

* `UndefinedNode.eval` — raises `UnsupportedSchemaError`;
* `PrimitiveNode.eval` — exact `isinstance` match returns the value
  unchanged; an `int`-instance is widened when a `float` is expected;
  anything else raises `SchemaValidationError`;
* `SequenceNode.eval` — requires a `list`, evaluates elementwise;
* `TupleNode.eval` — requires a `list` of exactly the declared length,
  evaluates positionwise, returns a tuple;
* `MappingNode.eval` — raises `UnsupportedSchemaError`;
* `UnionNode.eval` — raises `UnsupportedSchemaError` unless
  `is_primitive`; otherwise tries options in order (see `evalUnionGo`);
* `LiteralNode.eval` — membership under Python `==`;
* `ObjectNode.eval` — requires a dict and runs the field loop (see
  `evalObjGo`), finally invoking the constructor. -/
def eval (sch : SchemaNode) (v : PyVal) : Except Err PyVal :=
  match sch with
  | .undefined _ => .error (.unsupported "Cannot evaluate undefined schema.")
  | .primitive t =>
    if pyIsInstance v t then .ok v
    else if t = PrimType.float && pyIsInstance v PrimType.int then .ok (.float (pyToFloat v))
    else .error (.typeMismatch t v)
  | .sequence _ item =>
    match v with
    | .list xs => do
      let rs ← evalSeqItems item xs
      .ok (.list rs)
    | _ => .error (.expectedList v)
  | .tupleN _ items =>
    match v with
    | .list xs =>
      if xs.length ≠ items.length then .error (.tupleLength items.length xs.length)
      else do
        let rs ← evalTupleItems items xs
        .ok (.tuple rs)
    | _ => .error (.expectedList v)
  | .mapping _ _ _ => .error (.unsupported "Cannot evaluate Mapping schema.")
  | .union opts =>
    if ¬ isPrimitiveU opts then
      .error (.unsupported "Cannot evaluate non-primitive Union schema.")
    else evalUnionGo opts v opts
  | .literalN opts =>
    if opts.any (pyEqLit v) then .ok v else .error (.literalNoMatch v opts)
  | .objectN ctor posOnly _ fields _ =>
    match v with
    | .dict kvs => do
      let (args, kwargs) ← evalObjGo fields posOnly kvs [] [] (missingSeed fields)
      .ok (ctor args kwargs)
    | _ => .error (.expectedObject v)
termination_by (sizeOf sch, 1, 0)

/-- The list comprehension in `SequenceNode.eval`. -/
def evalSeqItems (item : SchemaNode) (xs : List PyVal) : Except Err (List PyVal) :=
  match xs with
  | [] => .ok []
  | x :: rest => do
    let r ← eval item x
    let rs ← evalSeqItems item rest
    .ok (r :: rs)
termination_by (sizeOf item, 2, xs.length)

/-- The `zip` generator in `TupleNode.eval` (lengths already checked). -/
def evalTupleItems (items : List SchemaNode) (xs : List PyVal) : Except Err (List PyVal) :=
  match items, xs with
  | item :: irest, x :: xrest => do
    let r ← eval item x
    let rs ← evalTupleItems irest xrest
    .ok (r :: rs)
  | _, _ => .ok []
termination_by (sizeOf items, 1, 0)

/-- The alternatives loop of `UnionNode.eval`: a `None` arm returns `None`
for a `None` input and is skipped otherwise; a schema arm returns its
result on success, is skipped on `SchemaValidationError`, and propagates
any other exception; exhaustion raises `SchemaValidationError` naming the
value and the full option list. -/
def evalUnionGo (full : List (Option SchemaNode)) (v : PyVal)
    (opts : List (Option SchemaNode)) : Except Err PyVal :=
  match opts with
  | [] => .error (.noOption v full)
  | Option.none :: rest =>
    if isNoneV v then .ok PyVal.none else evalUnionGo full v rest
  | some s :: rest =>
    match eval s v with
    | .ok r => .ok r
    | .error e => if e.isValidation then evalUnionGo full v rest else .error e
termination_by (sizeOf opts, 1, 0)

/-- Fused `name_to_schema.get(arg_name)` plus evaluation: walks the
fields, the *last* field with the key's name wins (dict-comprehension
semantics); `Option.none` means the key names no declared field. -/
def evalFieldLookup (fields : List ObjectField) (k : String) (v : PyVal) :
    Option (Except Err PyVal) :=
  match fields with
  | [] => Option.none
  | ObjectField.mk n s _ _ :: rest =>
    match evalFieldLookup rest k v with
    | some r => some r
    | Option.none => if n = k then some (eval s v) else Option.none
termination_by (sizeOf fields, 1, 0)

/-- The key loop of `ObjectNode.eval`: for each incoming key in dict
order, an undeclared key raises; the value is evaluated against the
field's schema; positional-only names append to `args`, all others bind
in `kwargs`; a satisfied name leaves the pending-required set.  After the
loop a non-empty pending set raises; otherwise the accumulated `args` and
`kwargs` are returned (the caller invokes the constructor). -/
def evalObjGo (fields : List ObjectField) (posOnly : List String)
    (kvs : List (String × PyVal)) (args : List PyVal)
    (kwargs : List (String × PyVal)) (missing : List String) :
    Except Err (List PyVal × List (String × PyVal)) :=
  match kvs with
  | [] =>
    if missing.isEmpty then .ok (args, kwargs) else .error (.missingFields missing)
  | (k, v) :: rest =>
    match evalFieldLookup fields k v with
    | Option.none => .error (.unexpectedField k)
    | some (.error e) => .error e
    | some (.ok ev) =>
      let args' := if k ∈ posOnly then args ++ [ev] else args
      let kwargs' := if k ∈ posOnly then kwargs else dictInsert kwargs k ev
      let missing' := if k ∈ missing then missing.erase k else missing
      evalObjGo fields posOnly rest args' kwargs' missing'
termination_by (sizeOf fields, 2, kvs.length)

end

/-! ## JSON-schema projection (`jsonschema.py` documents, `json_schema` methods) -/

/-- `LeafTypeName`: `"string" | "number" | "integer" | "boolean" | "null"`. -/
inductive LeafTypeName where
  | nullName
  | booleanName
  | numberName
  | integerName
  | stringName
deriving DecidableEq, Repr

/-- `_type_to_jsonname` restricted to the primitive types. -/
def typeNameOf : PrimType → LeafTypeName
  | .int => .integerName
  | .float => .numberName
  | .str => .stringName
  | .bool => .booleanName

/-- `LeafJsonSchema.type`: either a single type name or a list of them. -/
inductive LeafType where
  | one (n : LeafTypeName)
  | many (ns : List LeafTypeName)
deriving DecidableEq, Repr

/-- JSON-schema documents (`LeafJsonSchema`, `EnumJsonSchema`,
`ObjectJsonSchema`, `ArrayJsonSchema`): each variant carries its
`description` key as an `Option` (absent = key not set). -/
inductive JsonSchema where
  | leaf (type : LeafType) (description : Option String)
  | enum (enumVals : List String) (description : Option String)
  | obj (properties : List (String × JsonSchema)) (required : List String)
      (description : Option String)
  | arr (items : JsonSchema) (description : Option String)

/-- The `description` key of a document, whichever variant. -/
def descriptionOf : JsonSchema → Option String
  | .leaf _ d => d
  | .enum _ d => d
  | .obj _ _ d => d
  | .arr _ d => d

/-- `if parent_hint: result["description"] = parent_hint` — Python string
truthiness: `None` and the empty string leave the key absent. -/
def hintIf (h : Option String) : Option String :=
  match h with
  | some s => if s = "" then Option.none else some s
  | Option.none => Option.none

/-- The contribution of an optional string to a joined description list
(`if s: parts.append(s)`). -/
def truthyPart (h : Option String) : List String :=
  match h with
  | some s => if s = "" then [] else [s]
  | Option.none => []

/-- `isinstance(option, str)` for literal options. -/
def isStrLit : PyLit → Bool
  | .str _ => true
  | _ => false

/-- The string values of an all-string literal option list. -/
def strValsOf (opts : List PyLit) : List String :=
  opts.filterMap fun v =>
    match v with
    | .str s => some s
    | _ => Option.none

/-- The comprehension `[_type_to_jsonname[option.primitive_type] for
option in self.options if option is not None]`: skips `None` arms and
raises `AttributeError` at the first non-`PrimitiveNode` arm. -/
def typeNamesOf : List (Option SchemaNode) → Except Err (List LeafTypeName)
  | [] => .ok []
  | Option.none :: rest => typeNamesOf rest
  | some (.primitive t) :: rest => do
    let r ← typeNamesOf rest
    .ok (typeNameOf t :: r)
  | some _ :: rest => .error (.attributeError "object has no attribute primitive_type")

/-- Size bound used for the recursion of `UnionNode.json_schema` into the
union of its non-`None` options: dropping a present `None` arm strictly
shrinks the list. -/
theorem sizeOf_filter_isSome_lt (opts : List (Option SchemaNode))
    (h : opts.any Option.isNone = true) :
    sizeOf (opts.filter Option.isSome) < sizeOf opts := by
  induction opts with
  | nil => simp at h
  | cons o rest ih =>
    simp only [List.any_cons, Bool.or_eq_true] at h
    cases o with
    | none =>
      have : sizeOf (List.filter Option.isSome rest) ≤ sizeOf rest := by
        clear h ih
        induction rest with
        | nil => simp
        | cons p r ihr =>
          by_cases hp : Option.isSome p
          · simp [List.filter, hp]
            omega
          · simp only [List.filter, hp]
            simp only [List.cons.sizeOf_spec]
            have hps : (1 : ℕ) ≤ sizeOf p := by cases p <;> simp
            omega
      simp only [List.filter, Option.isSome, List.cons.sizeOf_spec]
      simp only [Option.none.sizeOf_spec]
      omega
    | some s =>
      have h' : rest.any Option.isNone = true := by
        rcases h with h | h
        · simp [Option.isNone] at h
        · exact h
      have := ih h'
      simp only [List.filter, Option.isSome, List.cons.sizeOf_spec]
      omega

/-- Size bound for the unwrap branch of `UnionNode.json_schema`: a node
appearing (wrapped in `some`) in the option list is smaller than the
list. -/
theorem sizeOf_lt_of_some_mem (opts : List (Option SchemaNode)) (s : SchemaNode)
    (h : some s ∈ opts) : sizeOf s < sizeOf opts := by
  have := List.sizeOf_lt_of_mem h
  simp only [Option.some.sizeOf_spec] at this
  omega

mutual

/-- `SchemaNode.json_schema(parent_hint)` (`schema.py`), dispatching on
the node variant:

* `UndefinedNode`, `TupleNode`, `MappingNode` — raise
  `UnsupportedSchemaError`;
* `PrimitiveNode` — a leaf document with the mapped type name;
* `SequenceNode` — an array document; the item projection receives no
  parent hint;
* `UnionNode` — raises unless `is_primitive`; an optional union drops its
  `None` arms and either unwraps a single remaining option or recurses on
  the stripped union; a non-optional union collects the primitive type
  names (`AttributeError` on a non-primitive arm), drops `"integer"` when
  `"number"` is present, and collapses a singleton name list;
* `LiteralNode` — an enum document, only if every option is a string;
* `ObjectNode` — an object document with per-field projections (each
  receiving the field's hint), required names, and a description joining
  the parent hint and the node's own hint with a blank line. -/
def jsonSchema (sch : SchemaNode) (parentHint : Option String) : Except Err JsonSchema :=
  match sch with
  | .undefined _ =>
    .error (.unsupported "JSON schema cannot be generated for missing or undefined annotations.")
  | .primitive t => .ok (.leaf (.one (typeNameOf t)) (hintIf parentHint))
  | .sequence _ item => do
    let inner ← jsonSchema item Option.none
    .ok (.arr inner (hintIf parentHint))
  | .tupleN _ _ =>
    .error (.unsupported "JSON schema cannot be generated for heterogeneous tuple types.")
  | .mapping _ _ _ =>
    .error (.unsupported "JSON schema cannot be generated for Mapping types.")
  | .union opts =>
    if ¬ isPrimitiveU opts then
      .error (.unsupported "JSON schema cannot be generated for non-trivial Union types.")
    else if hOpt : isOptionalU opts then
      match hF : opts.filter Option.isSome with
      | [some s] => jsonSchema s parentHint
      | options => jsonSchema (.union options) parentHint
    else do
      let names ← typeNamesOf opts
      let names :=
        if names.contains LeafTypeName.numberName && names.contains LeafTypeName.integerName
        then names.erase LeafTypeName.integerName else names
      let t :=
        match names with
        | [n] => LeafType.one n
        | ns => LeafType.many ns
      .ok (.leaf t (hintIf parentHint))
  | .literalN opts =>
    if opts.all isStrLit then .ok (.enum (strValsOf opts) (hintIf parentHint))
    else .error (.unsupported "JSON schema can only be generated for string literal types.")
  | .objectN _ _ _ fields selfHint => do
    let props ← jsonSchemaProps fields []
    let req := (fields.filter ObjectField.required).map ObjectField.name
    let joint := String.intercalate "\n\n" (truthyPart parentHint ++ truthyPart selfHint)
    .ok (.obj props req (if joint = "" then Option.none else some joint))
termination_by (sizeOf sch, 0)
decreasing_by
  all_goals apply Prod.Lex.left
  · first
      | (simp; omega)
      | simp
  · have hs : some s ∈ opts := by
      apply List.mem_of_mem_filter (p := Option.isSome)
      rw [hF]
      simp
    have := sizeOf_lt_of_some_mem opts s hs
    first
      | (simp; omega)
      | simp
  · subst hF
    have := sizeOf_filter_isSome_lt opts hOpt
    first
      | (simp; omega)
      | simp
  · first
      | (simp; omega)
      | simp

/-- The dict comprehension `{field.name: field.json_schema() for field in
self.fields}`; `ObjectField.json_schema` passes the field's hint as the
parent hint of its schema's projection. -/
def jsonSchemaProps (fields : List ObjectField) (acc : List (String × JsonSchema)) :
    Except Err (List (String × JsonSchema)) :=
  match fields with
  | [] => .ok acc
  | ObjectField.mk n s hh _ :: rest => do
    let d ← jsonSchema s hh
    jsonSchemaProps rest (dictInsert acc n d)
termination_by (sizeOf fields, 1)
decreasing_by
  all_goals apply Prod.Lex.left
  all_goals first
    | (simp; omega)
    | simp

end

/-! ## Callable schema facade (`CallableSchema`) -/

/-- The payload of an `ObjectNode` (constructor reference, positional-only
parameter names from the constructor signature, name, fields, hint), used
where the source types a field as `ObjectNode` rather than `SchemaNode`. -/
structure ObjectSchema where
  ctor : List PyVal → List (String × PyVal) → PyVal
  posOnly : List String
  name : String
  fields : List ObjectField
  hint : Option String

/-- The schema node an `ObjectSchema` denotes. -/
def ObjectSchema.toNode (o : ObjectSchema) : SchemaNode :=
  .objectN o.ctor o.posOnly o.name o.fields o.hint

/-- `CallableSchema`: call schema (an `ObjectNode`), return schema,
optional long description. -/
structure CallableSchema where
  call_schema : ObjectSchema
  return_schema : SchemaNode
  long_description : Option String

/-- The `name` property: the call schema's name. -/
def CallableSchema.name (cs : CallableSchema) : String :=
  cs.call_schema.name

/-- `JsonSchemaFlavor`. -/
inductive JsonSchemaFlavor where
  | openai
  | anthropic
deriving DecidableEq, Repr

/-- The two envelope layouts (`AnthropicCallableSchema` with
`input_schema`, `OpenAICallableSchema` with `parameters`); `description`
is optional in both. -/
inductive CallableJsonSchema where
  | anthropicEnv (name : String) (description : Option String) (input_schema : JsonSchema)
  | openaiEnv (name : String) (description : Option String) (parameters : JsonSchema)

/-- Envelope accessor: `name`. -/
def envName : CallableJsonSchema → String
  | .anthropicEnv n _ _ => n
  | .openaiEnv n _ _ => n

/-- Envelope accessor: `description`. -/
def envDescription : CallableJsonSchema → Option String
  | .anthropicEnv _ d _ => d
  | .openaiEnv _ d _ => d

/-- Envelope accessor: the nested parameter-object document
(`input_schema` or `parameters`). -/
def envPayload : CallableJsonSchema → JsonSchema
  | .anthropicEnv _ _ p => p
  | .openaiEnv _ _ p => p

/-- `evolve(self.call_schema, hint=None)`: a copy of the node with the
hint replaced, all other fields shared. -/
def evolveHintNone (o : ObjectSchema) : ObjectSchema :=
  { o with hint := Option.none }

/-- `CallableSchema.json_schema(flavor, include_long_description)`:

```
full_description = []
if self.call_schema.hint: full_description.append(self.call_schema.hint)
if self.long_description and include_long_description:
    full_description.append(self.long_description)
full_description = "\n\n".join(full_description)
<envelope per flavor, nested document = evolve(call_schema, hint=None).json_schema()>
if full_description: result["description"] = full_description
``` -/
def CallableSchema.json_schema (cs : CallableSchema) (flavor : JsonSchemaFlavor)
    (includeLong : Bool) : Except Err CallableJsonSchema :=
  let fullDescription := String.intercalate "\n\n"
    (truthyPart cs.call_schema.hint ++
      (if includeLong then truthyPart cs.long_description else []))
  let desc := if fullDescription = "" then Option.none else some fullDescription
  match flavor with
  | .anthropic => do
    let inner ← jsonSchema (evolveHintNone cs.call_schema).toNode Option.none
    .ok (.anthropicEnv cs.name desc inner)
  | .openai => do
    let inner ← jsonSchema (evolveHintNone cs.call_schema).toNode Option.none
    .ok (.openaiEnv cs.name desc inner)

/-- `CallableSchema.eval`: delegates to the call schema's evaluation
(thereby invoking the underlying callable). -/
def CallableSchema.evalCall (cs : CallableSchema) (v : PyVal) : Except Err PyVal :=
  eval cs.call_schema.toNode v

/-! ## Derived observation functions used in theorem statements -/

/-- The result of the first non-`None` union arm whose evaluation
succeeds, in declared order (`Option.none` when every arm fails). -/
def unionFirstOk (opts : List (Option SchemaNode)) (v : PyVal) : Option PyVal :=
  opts.findSome? fun o =>
    match o with
    | Option.none => Option.none
    | some s => (eval s v).toOption

/-- Whether a key names a declared field (per the last-wins field dict). -/
def keyDeclared (fields : List ObjectField) (k : String) : Bool :=
  (lookupSchemaLast fields k).isSome

/-- Whether a supplied key both names a declared field and has a value
that evaluates without error against that field's schema. -/
def evalKeyOk (fields : List ObjectField) (k : String) (v : PyVal) : Bool :=
  match evalFieldLookup fields k v with
  | some (.ok _) => true
  | _ => false

/-- The evaluated value of a supplied key (when `evalKeyOk`). -/
def evalKeyVal (fields : List ObjectField) (k : String) (v : PyVal) : Option PyVal :=
  match evalFieldLookup fields k v with
  | some (.ok r) => some r
  | _ => Option.none

end Wanga

namespace Wanga

/-! ## Supporting lemmas -/

theorem evalFieldLookup_eq_lookup (fields : List ObjectField) (k : String) (v : PyVal) :
    evalFieldLookup fields k v = (lookupSchemaLast fields k).map (fun sch => eval sch v) := by
  induction fields with
  | nil => simp [evalFieldLookup, lookupSchemaLast]
  | cons f rest ih =>
    cases f with
    | mk n s hh r =>
      rw [evalFieldLookup, ih, lookupSchemaLast]
      cases lookupSchemaLast rest k with
      | none =>
        by_cases hnk : n = k <;> simp [hnk, ObjectField.name, ObjectField.schema]
      | some s' => simp

theorem evalKeyOk_spec (fields : List ObjectField) (k : String) (v : PyVal)
    (h : evalKeyOk fields k v = true) :
    ∃ r, evalFieldLookup fields k v = some (.ok r) ∧ evalKeyVal fields k v = some r := by
  unfold evalKeyOk at h
  unfold evalKeyVal
  cases hl : evalFieldLookup fields k v with
  | none => rw [hl] at h; simp at h
  | some e =>
    cases e with
    | ok r => exact ⟨r, rfl, rfl⟩
    | error e => rw [hl] at h; simp at h

theorem dictInsert_fresh {α : Type} (kvs : List (String × α)) (k : String) (v : α)
    (h : ∀ q ∈ kvs, q.1 ≠ k) : dictInsert kvs k v = kvs ++ [(k, v)] := by
  unfold dictInsert
  have : kvs.any (fun p => p.1 = k) = false := by
    rw [List.any_eq_false]
    intro q hq
    simpa using h q hq
  simp [this]

theorem dedupFirstGo_eq_nodup {α : Type} (beq : α → α → Bool)
    (hbeq : ∀ a b, beq a b = true ↔ a = b) (l : List α) :
    ∀ seen : List α,
      (dedupFirstGo beq seen l).Nodup ∧
      ∀ x ∈ dedupFirstGo beq seen l, x ∉ seen := by
  induction l with
  | nil => intro seen; simp [dedupFirstGo]
  | cons a rest ih =>
    intro seen
    by_cases ha : a ∈ seen
    · have hb : seen.any (beq a) = true := by
        rw [List.any_eq_true]
        exact ⟨a, ha, (hbeq a a).mpr rfl⟩
      rw [dedupFirstGo, hb]
      simp only [if_true]
      exact ih seen
    · have hb : seen.any (beq a) = false := by
        rw [List.any_eq_false]
        intro b hbmem hab
        exact ha ((hbeq a b).mp hab ▸ hbmem)
      rw [dedupFirstGo, hb]
      simp only [Bool.false_eq_true, if_false]
      obtain ⟨hnd, hns⟩ := ih (a :: seen)
      refine ⟨List.nodup_cons.mpr ⟨fun hmem => ?_, hnd⟩, fun x hx => ?_⟩
      · exact (hns a hmem) (List.mem_cons_self a seen)
      · rcases List.mem_cons.mp hx with hx | hx
        · exact hx ▸ ha
        · intro hxs
          exact hns x hx (List.mem_cons_of_mem a hxs)

theorem missingSeed_nodup (fields : List ObjectField) : (missingSeed fields).Nodup := by
  unfold missingSeed dedupFirst
  exact (dedupFirstGo_eq_nodup (fun a b => a = b) (fun a b => by simp)
    ((fields.filter ObjectField.required).map ObjectField.name) []).1

theorem eval_primitive_error_shape (t : PrimType) (v : PyVal) (e : Err)
    (h : eval (.primitive t) v = .error e) : e = .typeMismatch t v := by
  rw [eval] at h
  by_cases h1 : pyIsInstance v t = true
  · simp [h1] at h
  · simp only [h1] at h
    by_cases h2 : (t = PrimType.float && pyIsInstance v PrimType.int) = true
    · simp [h2] at h
    · simp only [Bool.not_eq_true] at h1 h2
      simp [h1, h2] at h
      exact h.symm

end Wanga

namespace Wanga

/-! ## Claim theorems -/

/-- C6: `PrimitiveNode.eval` returns the input unchanged exactly when the
value is an instance of the declared primitive type; when the declared
type is `float` and the input is an `int` instance, it succeeds with the
widened float value; any other mismatch raises `SchemaValidationError`
(in particular `Primitive(float)` on `50` yields `50.0` and
`Primitive(int)` on `"50"` fails, as the witness instantiates). -/
theorem primitive_eval_spec (t : PrimType) (v : PyVal) :
    (pyIsInstance v t = true → eval (.primitive t) v = .ok v) ∧
    (pyIsInstance v t = false → t = PrimType.float → pyIsInstance v PrimType.int = true →
      eval (.primitive t) v = .ok (.float (pyToFloat v))) ∧
    (pyIsInstance v t = false → ¬(t = PrimType.float ∧ pyIsInstance v PrimType.int = true) →
      eval (.primitive t) v = .error (.typeMismatch t v)) ∧
    (∀ r, eval (.primitive t) v = .ok r → (r = v ↔ pyIsInstance v t = true)) := by
  refine ⟨fun h => ?_, fun h1 h2 h3 => ?_, fun h1 h2 => ?_, fun r hr => ?_⟩
  · rw [eval, h]
    simp
  · rw [eval, h1]
    subst h2
    simp [h3]
  · cases t <;> cases v <;> simp_all [eval, pyIsInstance]
  · cases t <;> cases v <;> simp_all [eval, pyIsInstance, pyToFloat]
    all_goals subst hr
    all_goals simp

/-- C6 witness: the two spec examples. -/
theorem primitive_eval_spec_witness :
    eval (.primitive .float) (.int 50) = .ok (.float 50) ∧
    eval (.primitive .int) (.str "50") = .error (.typeMismatch .int (.str "50")) := by
  constructor
  · exact (primitive_eval_spec .float (.int 50)).2.1 rfl rfl rfl
  · exact (primitive_eval_spec .int (.str "50")).2.2.1 rfl (by decide)

/-- C10: booleans are accepted where integers are expected —
`Primitive(int)` returns a boolean input unchanged (because `bool` is a
subclass of `int`), and `Primitive(float)` widens a boolean to `1.0` or
`0.0`. -/
theorem primitive_eval_bool_widening (b : Bool) :
    eval (.primitive .int) (.bool b) = .ok (.bool b) ∧
    eval (.primitive .float) (.bool b) = .ok (.float (if b then 1 else 0)) := by
  constructor
  · rw [eval]
    simp [pyIsInstance]
  · rw [eval]
    simp [pyIsInstance, pyToFloat]

/-- C2: `json_schema` fails with `UnsupportedSchemaError`, for every
parent hint, on `UndefinedNode`, `MappingNode`, `TupleNode`,
any `UnionNode` failing the primitivity test, and any `LiteralNode` with
at least one non-string option. -/
theorem json_schema_unsupported_shapes (h : Option String) :
    (∀ origAnn, jsonSchema (.undefined origAnn) h =
      .error (.unsupported "JSON schema cannot be generated for missing or undefined annotations.")) ∧
    (∀ mt ks vs, jsonSchema (.mapping mt ks vs) h =
      .error (.unsupported "JSON schema cannot be generated for Mapping types.")) ∧
    (∀ tt its, jsonSchema (.tupleN tt its) h =
      .error (.unsupported "JSON schema cannot be generated for heterogeneous tuple types.")) ∧
    (∀ opts, isPrimitiveU opts = false → jsonSchema (.union opts) h =
      .error (.unsupported "JSON schema cannot be generated for non-trivial Union types.")) ∧
    (∀ vals, vals.all isStrLit = false → jsonSchema (.literalN vals) h =
      .error (.unsupported "JSON schema can only be generated for string literal types.")) := by
  refine ⟨fun o => ?_, fun mt ks vs => ?_, fun tt its => ?_, fun opts hp => ?_, fun vals hs => ?_⟩
  · rw [jsonSchema]
  · rw [jsonSchema]
  · rw [jsonSchema]
  · rw [jsonSchema]
    simp [hp]
  · rw [jsonSchema]
    simp [hs]

/-- C2 witness: concrete nodes of each failing shape, with a hint. -/
theorem json_schema_unsupported_shapes_witness :
    jsonSchema (.undefined Option.none) (some "hint") =
      .error (.unsupported "JSON schema cannot be generated for missing or undefined annotations.") ∧
    jsonSchema (.union [some (.undefined Option.none), some (.undefined Option.none)]) (some "hint") =
      .error (.unsupported "JSON schema cannot be generated for non-trivial Union types.") ∧
    jsonSchema (.literalN [.int 1, .str "a"]) (some "hint") =
      .error (.unsupported "JSON schema can only be generated for string literal types.") := by
  refine ⟨(json_schema_unsupported_shapes (some "hint")).1 Option.none, ?_, ?_⟩
  · exact (json_schema_unsupported_shapes (some "hint")).2.2.2.1
      [some (.undefined Option.none), some (.undefined Option.none)]
      (by simp [isPrimitiveU, isPrimNode])
  · exact (json_schema_unsupported_shapes (some "hint")).2.2.2.2
      [.int 1, .str "a"] (by simp [isStrLit])

/-- C9: a union with no null-marker, at least two options and a
non-`PrimitiveNode` option fails the primitivity gate, so `eval` raises
`UnsupportedSchemaError` for every input; a single-option union, and a
two-option union containing the null-marker, pass the gate regardless of
their options' shapes and are evaluated by the ordinary alternatives
loop. -/
theorem union_primitivity_gate (opts : List (Option SchemaNode)) (v : PyVal) :
    (opts.any Option.isNone = false → 2 ≤ opts.length →
      (opts.any fun o =>
        match o with
        | Option.none => false
        | some s => !(isPrimNode s)) = true →
      eval (.union opts) v = .error (.unsupported "Cannot evaluate non-primitive Union schema.")) ∧
    (∀ o : Option SchemaNode, isPrimitiveU [o] = true ∧
      eval (.union [o]) v = evalUnionGo [o] v [o]) ∧
    (opts.length = 2 → opts.any Option.isNone = true →
      isPrimitiveU opts = true ∧ eval (.union opts) v = evalUnionGo opts v opts) := by
  refine ⟨fun hn hl hnp => ?_, fun o => ⟨?_, ?_⟩, fun hl hn => ⟨?_, ?_⟩⟩
  · have hgate : isPrimitiveU opts = false := by
      unfold isPrimitiveU
      have h1 : ¬ opts.length = 1 := by omega
      simp only [h1, if_false]
      rw [hn]
      simp only [Bool.and_false, Bool.false_eq_true, if_false]
      rw [List.all_eq_false]
      rw [List.any_eq_true] at hnp
      obtain ⟨o, ho, hno⟩ := hnp
      refine ⟨o, ho, ?_⟩
      cases o with
      | none => simp at hno
      | some s => simpa using hno
    rw [eval]
    simp [hgate]
  · simp [isPrimitiveU]
  · rw [eval]
    simp [isPrimitiveU]
  · unfold isPrimitiveU
    rw [hl, hn]
    simp
  · have : isPrimitiveU opts = true := by
      unfold isPrimitiveU
      rw [hl, hn]
      simp
    rw [eval]
    simp [this]

theorem eval_primitive_none_fails (t : PrimType) :
    eval (.primitive t) PyVal.none = .error (.typeMismatch t PyVal.none) := by
  cases t <;> simp [eval, pyIsInstance]

theorem evalUnionGo_null_all_prim (full opts : List (Option SchemaNode))
    (hprim : (opts.all fun o =>
      match o with
      | Option.none => true
      | some s => isPrimNode s) = true) :
    evalUnionGo full PyVal.none opts =
      if opts.any Option.isNone then .ok PyVal.none
      else .error (.noOption PyVal.none full) := by
  induction opts with
  | nil => simp [evalUnionGo]
  | cons o rest ih =>
    rw [List.all_cons, Bool.and_eq_true] at hprim
    obtain ⟨ho, hrest⟩ := hprim
    cases o with
    | none =>
      rw [evalUnionGo]
      simp [isNoneV]
    | some s =>
      cases s <;> simp only [isPrimNode, Bool.false_eq_true] at ho
      rename_i t
      rw [evalUnionGo, eval_primitive_none_fails]
      simp only [Err.isValidation, if_true]
      rw [ih hrest]
      simp only [List.any_cons, Option.isNone, Bool.false_or]

theorem evalUnionGo_firstOk_all_prim (full : List (Option SchemaNode)) (v : PyVal)
    (hv : isNoneV v = false) (opts : List (Option SchemaNode))
    (hprim : (opts.all fun o =>
      match o with
      | Option.none => true
      | some s => isPrimNode s) = true) :
    evalUnionGo full v opts =
      (match unionFirstOk opts v with
       | some r => .ok r
       | Option.none => .error (.noOption v full)) := by
  induction opts with
  | nil => simp [evalUnionGo, unionFirstOk]
  | cons o rest ih =>
    rw [List.all_cons, Bool.and_eq_true] at hprim
    obtain ⟨ho, hrest⟩ := hprim
    cases o with
    | none =>
      rw [evalUnionGo]
      simp only [hv, Bool.false_eq_true, if_false]
      rw [ih hrest]
      simp [unionFirstOk]
    | some s =>
      cases s <;> simp only [isPrimNode, Bool.false_eq_true] at ho
      rename_i t
      rw [evalUnionGo]
      cases he : eval (.primitive t) v with
      | ok r =>
        simp only [unionFirstOk, List.findSome?_cons, he, Except.toOption]
      | error e =>
        have : e = .typeMismatch t v := eval_primitive_error_shape t v e he
        subst this
        simp only [Err.isValidation, if_true]
        rw [ih hrest]
        simp [unionFirstOk, List.findSome?_cons, he, Except.toOption]

/-- C3 counterexample: the claim quantifies over *every* `UnionNode`, but
a union of `Primitive(float)` and `Literal["hehe"]` fails the primitivity
gate, so evaluating it against `1.0` raises `UnsupportedSchemaError`
instead of returning the first successful alternative's value `1.0`. -/
theorem union_eval_nonprimitive_cex :
    eval (.union [some (.primitive .float), some (.literalN [.str "hehe"])]) (.float 1) =
      .error (.unsupported "Cannot evaluate non-primitive Union schema.") ∧
    eval (.union [some (.primitive .float), some (.literalN [.str "hehe"])]) (.float 1) ≠
      .ok (.float 1) := by
  have h : eval (.union [some (.primitive .float), some (.literalN [.str "hehe"])]) (.float 1) =
      .error (.unsupported "Cannot evaluate non-primitive Union schema.") := by
    rw [eval]
    simp [isPrimitiveU, isPrimNode]
  exact ⟨h, by rw [h]; simp⟩

/-- C3 (amended): for every `UnionNode` whose non-null options are all
`PrimitiveNode`s (such unions pass the primitivity gate; unions failing
the gate raise `UnsupportedSchemaError` instead, see C9), and every JSON
value: `eval` tries the non-null alternatives in declared order and
returns the result of the first alternative whose evaluation does not
fail; a null input succeeds (returning null) if and only if a null-marker
arm is present; and if every alternative fails, `eval` raises
`SchemaValidationError` naming the value and all attempted
alternatives. -/
theorem union_eval_primitive_spec (opts : List (Option SchemaNode)) (v : PyVal)
    (hprim : (opts.all fun o =>
      match o with
      | Option.none => true
      | some s => isPrimNode s) = true) :
    isPrimitiveU opts = true ∧
    (isNoneV v = true →
      eval (.union opts) v =
        (if opts.any Option.isNone then .ok PyVal.none
         else .error (.noOption v opts))) ∧
    (isNoneV v = false →
      eval (.union opts) v =
        (match unionFirstOk opts v with
         | some r => .ok r
         | Option.none => .error (.noOption v opts))) := by
  have hgate : isPrimitiveU opts = true := by
    unfold isPrimitiveU
    split_ifs with h1 h2
    · rfl
    · rfl
    · exact hprim
  refine ⟨hgate, fun hnull => ?_, fun hnotnull => ?_⟩
  · have hveq : v = PyVal.none := by
      cases v <;> simp [isNoneV] at hnull ⊢
    subst hveq
    rw [eval]
    rw [if_neg (by simp [hgate])]
    exact evalUnionGo_null_all_prim opts opts hprim
  · rw [eval]
    rw [if_neg (by simp [hgate])]
    exact evalUnionGo_firstOk_all_prim opts v hnotnull opts hprim

/-- C3 witness: for `Primitive(float) | Primitive(int)`, the gate passes
and evaluating `5` returns the first alternative's (widened) result
`5.0`. -/
theorem union_eval_primitive_spec_witness :
    isPrimitiveU [some (.primitive .float), some (.primitive .int)] = true ∧
    eval (.union [some (.primitive .float), some (.primitive .int)]) (.int 5) =
      .ok (.float 5) := by
  obtain ⟨h1, _, h3⟩ := union_eval_primitive_spec
    [some (.primitive .float), some (.primitive .int)] (.int 5) (by simp [isPrimNode])
  refine ⟨h1, ?_⟩
  rw [h3 rfl]
  simp [unionFirstOk, List.findSome?_cons, eval, pyIsInstance, pyToFloat, Except.toOption]

/-- C9 witness: a two-option non-primitive union without null fails; a
two-option union with a null-marker and a mapping option passes the
gate. -/
theorem union_primitivity_gate_witness :
    eval (.union [some (.mapping .dict (.primitive .int) (.primitive .int)),
      some (.undefined Option.none)]) (.int 0) =
      .error (.unsupported "Cannot evaluate non-primitive Union schema.") ∧
    (isPrimitiveU [Option.none, some (.mapping .dict (.primitive .int) (.primitive .int))] = true ∧
      eval (.union [Option.none, some (.mapping .dict (.primitive .int) (.primitive .int))]) (.int 0) =
        evalUnionGo [Option.none, some (.mapping .dict (.primitive .int) (.primitive .int))] (.int 0)
          [Option.none, some (.mapping .dict (.primitive .int) (.primitive .int))]) := by
  constructor
  · exact (union_primitivity_gate
      [some (.mapping .dict (.primitive .int) (.primitive .int)), some (.undefined Option.none)]
      (.int 0)).1 (by simp) (by simp) (by simp [isPrimNode])
  · exact (union_primitivity_gate
      [Option.none, some (.mapping .dict (.primitive .int) (.primitive .int))] (.int 0)).2.2
      (by simp) (by simp)

end Wanga

namespace Wanga

/-- C4: the literal-merge the spec and `test_schema.py::test_normalize_schema`
describe does not happen in `normalize.py`.  The annotation object Python
builds for `Literal[1] | Literal[2] | Literal[3]` is
`typing.Union[Literal[1], Literal[2], Literal[3]]` (the `|` operator on
`typing` forms produces `typing.Union`, which flattens but does not merge
literal arms), and `normalize_annotation` rebuilds exactly that union —
not `Literal[1, 2, 3]`.  Likewise for the nested example
`Literal[1, 2] | Union[Literal[2, 3], Literal[3, 4]]`. -/
theorem normalize_literal_merge_bug :
    pyOr (pyOr (.literal [.lit (.int 1)]) (.literal [.lit (.int 2)])) (.literal [.lit (.int 3)]) =
      PyAnn.typingUnion [.literal [.lit (.int 1)], .literal [.lit (.int 2)], .literal [.lit (.int 3)]] ∧
    normalizeAnn false
      (.typingUnion [.literal [.lit (.int 1)], .literal [.lit (.int 2)], .literal [.lit (.int 3)]]) =
      .ok (.typingUnion [.literal [.lit (.int 1)], .literal [.lit (.int 2)], .literal [.lit (.int 3)]]) ∧
    PyAnn.typingUnion [.literal [.lit (.int 1)], .literal [.lit (.int 2)], .literal [.lit (.int 3)]] ≠
      PyAnn.literal [.lit (.int 1), .lit (.int 2), .lit (.int 3)] ∧
    pyOr (.literal [.lit (.int 1), .lit (.int 2)])
      (.typingUnion [.literal [.lit (.int 2), .lit (.int 3)], .literal [.lit (.int 3), .lit (.int 4)]]) =
      PyAnn.typingUnion [.literal [.lit (.int 1), .lit (.int 2)],
        .literal [.lit (.int 2), .lit (.int 3)], .literal [.lit (.int 3), .lit (.int 4)]] ∧
    normalizeAnn false
      (.typingUnion [.literal [.lit (.int 1), .lit (.int 2)],
        .literal [.lit (.int 2), .lit (.int 3)], .literal [.lit (.int 3), .lit (.int 4)]]) =
      .ok (.typingUnion [.literal [.lit (.int 1), .lit (.int 2)],
        .literal [.lit (.int 2), .lit (.int 3)], .literal [.lit (.int 3), .lit (.int 4)]]) ∧
    PyAnn.typingUnion [.literal [.lit (.int 1), .lit (.int 2)],
        .literal [.lit (.int 2), .lit (.int 3)], .literal [.lit (.int 3), .lit (.int 4)]] ≠
      PyAnn.literal [.lit (.int 1), .lit (.int 2), .lit (.int 3), .lit (.int 4)] := by
  refine ⟨?_, ?_, by simp, ?_, ?_, by simp⟩
  · simp [pyOr, isTypingForm, mkUnion, unionArms, dedupFirst, dedupFirstGo, pyAnnBeq,
      pyAnnListBeq, List.flatMap]
  · simp [normalizeAnn, normalizeListAnn, getOrigin, getArgs, foldOr, pyOr, isTypingForm,
      mkUnion, mkLiteral, unionArms, literalArms, pySubscript, dedupFirst, dedupFirstGo,
      pyAnnBeq, pyAnnListBeq, Bind.bind, Except.bind]
  · simp [pyOr, isTypingForm, mkUnion, unionArms, dedupFirst, dedupFirstGo, pyAnnBeq,
      pyAnnListBeq, List.flatMap]
  · simp [normalizeAnn, normalizeListAnn, getOrigin, getArgs, foldOr, pyOr, isTypingForm,
      mkUnion, mkLiteral, unionArms, literalArms, pySubscript, dedupFirst, dedupFirstGo,
      pyAnnBeq, pyAnnListBeq, Bind.bind, Except.bind]

/-- C5: `normalize_annotation` is not idempotent.  On
`typing.Union[int, str]` the first application returns the PEP-604 union
`int | str`; applying `normalize_annotation` to that result raises
`TypeError`, because a PEP-604 union's origin is `types.UnionType`, which
fails the `origin is Union` identity test and reaches `origin[args]`,
and `types.UnionType` is not subscriptable. -/
theorem normalize_idempotence_bug :
    normalizeAnn false (.typingUnion [.cls .int, .cls .str]) =
      .ok (.unionType [.cls .int, .cls .str]) ∧
    normalizeAnn false (.unionType [.cls .int, .cls .str]) =
      .error "TypeError: type types.UnionType is not subscriptable" ∧
    (Except.error "TypeError: type types.UnionType is not subscriptable" :
        Except String PyAnn) ≠
      .ok (.unionType [.cls .int, .cls .str]) := by
  refine ⟨?_, ?_, by simp⟩
  · simp [normalizeAnn, normalizeListAnn, getOrigin, getArgs, foldOr, pyOr, isTypingForm,
      mkUnionType, unionArms, dedupFirst, dedupFirstGo, pyAnnBeq, pyAnnListBeq,
      Bind.bind, Except.bind]
  · simp [normalizeAnn, normalizeListAnn, getOrigin, getArgs, pySubscript,
      Bind.bind, Except.bind]

end Wanga

namespace Wanga

/-- C7: `CallableSchema.json_schema` produces, for both flavors, an
envelope carrying the name and the projection of a hint-stripped copy of
the call schema (under `input_schema` for the Anthropic flavor and
`parameters` for the OpenAI flavor); the nested object projection carries
no top-level description (the call schema's own hint cannot appear
there); the single top-level description is assembled from the
call-schema's hint plus — only when `include_long_description` — the long
description, joined by a blank line, and is absent entirely when that
assembly is empty; the two flavors agree on name, description, and
payload. -/
theorem callable_json_schema_spec (cs : CallableSchema) (fl : JsonSchemaFlavor) (il : Bool) :
    (CallableSchema.json_schema cs fl il =
      (jsonSchema (evolveHintNone cs.call_schema).toNode Option.none).map fun inner =>
        (let d := String.intercalate "\n\n"
          (truthyPart cs.call_schema.hint ++
            (if il then truthyPart cs.long_description else []))
         match fl with
         | .anthropic =>
           .anthropicEnv cs.call_schema.name (if d = "" then Option.none else some d) inner
         | .openai =>
           .openaiEnv cs.call_schema.name (if d = "" then Option.none else some d) inner)) ∧
    Option.all (fun doc => (descriptionOf doc).isNone)
      ((jsonSchema (evolveHintNone cs.call_schema).toNode Option.none).toOption) = true ∧
    (∀ envA envO,
      CallableSchema.json_schema cs .anthropic il = .ok envA →
      CallableSchema.json_schema cs .openai il = .ok envO →
      ∃ n d p, envA = .anthropicEnv n d p ∧ envO = .openaiEnv n d p) := by
  have hmap : ∀ fl' : JsonSchemaFlavor, CallableSchema.json_schema cs fl' il =
      (jsonSchema (evolveHintNone cs.call_schema).toNode Option.none).map fun inner =>
        (let d := String.intercalate "\n\n"
          (truthyPart cs.call_schema.hint ++
            (if il then truthyPart cs.long_description else []))
         match fl' with
         | .anthropic =>
           .anthropicEnv cs.call_schema.name (if d = "" then Option.none else some d) inner
         | .openai =>
           .openaiEnv cs.call_schema.name (if d = "" then Option.none else some d) inner) := by
    intro fl'
    cases fl' <;>
      cases hj : jsonSchema (evolveHintNone cs.call_schema).toNode Option.none <;>
        simp [CallableSchema.json_schema, CallableSchema.name, hj, Except.map,
          Bind.bind, Except.bind]
  refine ⟨hmap fl, ?_, ?_⟩
  · have hnode : (evolveHintNone cs.call_schema).toNode =
        .objectN cs.call_schema.ctor cs.call_schema.posOnly cs.call_schema.name
          cs.call_schema.fields Option.none := rfl
    rw [hnode]
    cases hp : jsonSchemaProps cs.call_schema.fields [] with
    | ok props =>
      have hemp : String.intercalate "\n\n" ([] : List String) = "" := rfl
      simp [jsonSchema, hp, truthyPart, descriptionOf, Bind.bind, Except.bind,
        Except.toOption, hemp]
    | error e =>
      simp [jsonSchema, hp, Bind.bind, Except.bind, Except.toOption]
  · intro envA envO hA hO
    rw [hmap .anthropic] at hA
    rw [hmap .openai] at hO
    cases hj : jsonSchema (evolveHintNone cs.call_schema).toNode Option.none with
    | error e =>
      rw [hj] at hA
      simp [Except.map] at hA
    | ok inner =>
      rw [hj] at hA hO
      simp only [Except.map, Except.ok.injEq] at hA hO
      exact ⟨cs.call_schema.name, _, inner, hA.symm, hO.symm⟩

/-- C8: schema nodes are pure values in the embedding (mirroring the
`@frozen` node classes); the hint-stripping transformation in
`CallableSchema.json_schema` is `evolve(call_schema, hint=None)`, which
builds a *new* node — all fields except the hint shared, equal to the
original exactly when the hint was already absent — and the original
node, its hint included, stays observable afterwards: the top-level
description of the produced envelope is still assembled from the
original, unstripped hint. -/
theorem schema_node_immutability (o : ObjectSchema) :
    (evolveHintNone o).hint = Option.none ∧
    (evolveHintNone o).ctor = o.ctor ∧
    (evolveHintNone o).posOnly = o.posOnly ∧
    (evolveHintNone o).name = o.name ∧
    (evolveHintNone o).fields = o.fields ∧
    (evolveHintNone o = o ↔ o.hint = Option.none) ∧
    (∀ (h : String) (rs : SchemaNode) (ld : Option String) (fl : JsonSchemaFlavor)
        (env : CallableJsonSchema),
      o.hint = some h → h ≠ "" →
      CallableSchema.json_schema ⟨o, rs, ld⟩ fl false = .ok env →
      envDescription env = some h) := by
  refine ⟨rfl, rfl, rfl, rfl, rfl, ?_, ?_⟩
  · cases o with
    | mk c p n f hh =>
      simp [evolveHintNone, eq_comm]
  · intro h rs ld fl env hh hne henv
    have hparts : truthyPart (CallableSchema.mk o rs ld).call_schema.hint ++
        (if false then truthyPart (CallableSchema.mk o rs ld).long_description else []) = [h] := by
      simp [truthyPart, hh, hne]
    unfold CallableSchema.json_schema at henv
    rw [hparts] at henv
    have hinterc : String.intercalate "\n\n" [h] = h := rfl
    rw [hinterc] at henv
    cases fl <;>
      cases hj : jsonSchema (evolveHintNone o).toNode Option.none <;>
        rw [hj] at henv <;>
        simp [Bind.bind, Except.bind, hne, envDescription] at henv ⊢ <;>
        simp [← henv, envDescription]

end Wanga

namespace Wanga

/-- C7 witness: a one-field callable schema with a hint and a long
description, projected in both flavors with the long description
included. -/
theorem callable_json_schema_spec_witness :
    ∃ n d p,
      CallableSchema.json_schema
        ⟨⟨fun _ _ => PyVal.none, [], "foo",
          [ObjectField.mk "x" (.primitive .int) Option.none true], some "Foo!"⟩,
          .undefined Option.none, some "Long."⟩ .anthropic true = .ok (.anthropicEnv n d p) ∧
      CallableSchema.json_schema
        ⟨⟨fun _ _ => PyVal.none, [], "foo",
          [ObjectField.mk "x" (.primitive .int) Option.none true], some "Foo!"⟩,
          .undefined Option.none, some "Long."⟩ .openai true = .ok (.openaiEnv n d p) := by
  have hA : CallableSchema.json_schema
      ⟨⟨fun _ _ => PyVal.none, [], "foo",
        [ObjectField.mk "x" (.primitive .int) Option.none true], some "Foo!"⟩,
        .undefined Option.none, some "Long."⟩ .anthropic true =
      .ok (.anthropicEnv "foo" (some ("Foo!\n\nLong."))
        (.obj [("x", .leaf (.one .integerName) Option.none)] ["x"] Option.none)) := by
    rw [(callable_json_schema_spec _ .anthropic true).1]
    simp [jsonSchema, jsonSchemaProps, evolveHintNone, ObjectSchema.toNode, dictInsert,
      truthyPart, hintIf, ObjectField.required, ObjectField.name, Bind.bind, Except.bind,
      Except.map]
    exact ⟨⟨by decide, by rfl⟩, by rfl, by rfl⟩
  have hO : CallableSchema.json_schema
      ⟨⟨fun _ _ => PyVal.none, [], "foo",
        [ObjectField.mk "x" (.primitive .int) Option.none true], some "Foo!"⟩,
        .undefined Option.none, some "Long."⟩ .openai true =
      .ok (.openaiEnv "foo" (some ("Foo!\n\nLong."))
        (.obj [("x", .leaf (.one .integerName) Option.none)] ["x"] Option.none)) := by
    rw [(callable_json_schema_spec _ .openai true).1]
    simp [jsonSchema, jsonSchemaProps, evolveHintNone, ObjectSchema.toNode, dictInsert,
      truthyPart, hintIf, ObjectField.required, ObjectField.name, Bind.bind, Except.bind,
      Except.map]
    exact ⟨⟨by decide, by rfl⟩, by rfl, by rfl⟩
  obtain ⟨n, d, p, h1, h2⟩ := (callable_json_schema_spec
    ⟨⟨fun _ _ => PyVal.none, [], "foo",
      [ObjectField.mk "x" (.primitive .int) Option.none true], some "Foo!"⟩,
      .undefined Option.none, some "Long."⟩ .anthropic true).2.2 _ _ hA hO
  exact ⟨n, d, p, h1 ▸ hA, h2 ▸ hO⟩

/-- C8 witness: with a present hint, the stripped node differs from the
original, and after projecting the original node's hint is what the
envelope's description carries. -/
theorem schema_node_immutability_witness :
    (evolveHintNone ⟨fun _ _ => PyVal.none, [], "foo", [], some "Foo!"⟩ ≠
      (⟨fun _ _ => PyVal.none, [], "foo", [], some "Foo!"⟩ : ObjectSchema)) ∧
    (∃ env, CallableSchema.json_schema
        ⟨⟨fun _ _ => PyVal.none, [], "foo", [], some "Foo!"⟩,
          .undefined Option.none, Option.none⟩ .anthropic false = .ok env ∧
      envDescription env = some "Foo!") := by
  constructor
  · intro he
    have h6 := (schema_node_immutability
      ⟨fun _ _ => PyVal.none, [], "foo", [], some "Foo!"⟩).2.2.2.2.2.1.mp he
    simp at h6
  · have henv : CallableSchema.json_schema
        ⟨⟨fun _ _ => PyVal.none, [], "foo", [], some "Foo!"⟩,
          .undefined Option.none, Option.none⟩ .anthropic false =
        .ok (.anthropicEnv "foo" (some "Foo!") (.obj [] [] Option.none)) := by
      simp [CallableSchema.json_schema, CallableSchema.name, jsonSchema, jsonSchemaProps,
        evolveHintNone, ObjectSchema.toNode, truthyPart, ObjectField.required,
        ObjectField.name, Bind.bind, Except.bind]
      exact ⟨⟨by decide, by rfl⟩, by rfl⟩
    refine ⟨_, henv, ?_⟩
    exact (schema_node_immutability
      ⟨fun _ _ => PyVal.none, [], "foo", [], some "Foo!"⟩).2.2.2.2.2.2
      "Foo!" (.undefined Option.none) Option.none .anthropic _ rfl (by simp) henv

end Wanga

namespace Wanga

theorem erase_filter_step (missing : List String) (k : String) (restkeys : List String)
    (hnd : missing.Nodup) :
    (if k ∈ missing then missing.erase k else missing).filter
        (fun m => !(restkeys.contains m)) =
      missing.filter (fun m => !((k :: restkeys).contains m)) := by
  by_cases hk : k ∈ missing
  · simp only [hk, if_true]
    rw [List.Nodup.erase_eq_filter hnd, List.filter_filter]
    apply List.filter_congr
    intro m hm
    show (!restkeys.contains m && (m != k)) = !((k :: restkeys).contains m)
    have hc : (k :: restkeys).contains m = (m == k || restkeys.contains m) := rfl
    rw [hc, Bool.not_or, Bool.and_comm]
    rfl
  · simp only [hk, if_false]
    apply List.filter_congr
    intro m hm
    have hmk : (m == k) = false := by
      simp only [beq_eq_false_iff_ne, ne_eq]
      intro he
      exact hk (he ▸ hm)
    have hc : (k :: restkeys).contains m = (m == k || restkeys.contains m) := rfl
    rw [hc, hmk, Bool.false_or]

theorem evalObjGo_unknown_key (fields : List ObjectField) (posOnly : List String)
    (k : String) (v0 : PyVal) (post : List (String × PyVal)) :
    ∀ (pre : List (String × PyVal)) (args : List PyVal)
      (kwargs : List (String × PyVal)) (missing : List String),
    (∀ p ∈ pre, evalKeyOk fields p.1 p.2 = true) →
    lookupSchemaLast fields k = Option.none →
    evalObjGo fields posOnly (pre ++ (k, v0) :: post) args kwargs missing =
      .error (.unexpectedField k) := by
  intro pre
  induction pre with
  | nil =>
    intro args kwargs missing _ hun
    have hfl : evalFieldLookup fields k v0 = Option.none := by
      rw [evalFieldLookup_eq_lookup, hun]
      rfl
    rw [List.nil_append, evalObjGo, hfl]
  | cons p pre ih =>
    intro args kwargs missing hok hun
    obtain ⟨k1, v1⟩ := p
    obtain ⟨r, hfl, _⟩ := evalKeyOk_spec fields k1 v1 (hok (k1, v1) (List.mem_cons_self _ _))
    rw [List.cons_append, evalObjGo, hfl]
    exact ih _ _ _ (fun q hq => hok q (List.mem_cons_of_mem _ hq)) hun

theorem evalObjGo_all_ok (fields : List ObjectField) (posOnly : List String) :
    ∀ (kvs : List (String × PyVal)) (args : List PyVal)
      (kwargs : List (String × PyVal)) (missing : List String),
    (∀ p ∈ kvs, evalKeyOk fields p.1 p.2 = true) →
    missing.Nodup →
    (∀ q ∈ kwargs, q.1 ∉ kvs.map Prod.fst) →
    (kvs.map Prod.fst).Nodup →
    evalObjGo fields posOnly kvs args kwargs missing =
      (if (missing.filter fun m => !((kvs.map Prod.fst).contains m)).isEmpty then
        .ok (args ++ (kvs.filterMap fun p =>
              if p.1 ∈ posOnly then evalKeyVal fields p.1 p.2 else Option.none),
             kwargs ++ (kvs.filterMap fun p =>
              if p.1 ∈ posOnly then Option.none
              else (evalKeyVal fields p.1 p.2).map fun r => (p.1, r)))
       else .error (.missingFields
        (missing.filter fun m => !((kvs.map Prod.fst).contains m)))) := by
  intro kvs
  induction kvs with
  | nil =>
    intro args kwargs missing _ _ _ _
    rw [evalObjGo]
    simp
  | cons p rest ih =>
    intro args kwargs missing hok hnd hkw hnodup
    obtain ⟨k, v⟩ := p
    obtain ⟨r, hfl, hkv⟩ := evalKeyOk_spec fields k v (hok (k, v) (List.mem_cons_self _ _))
    rw [evalObjGo, hfl]
    have hkeys : ((k, v) :: rest).map Prod.fst = k :: rest.map Prod.fst := rfl
    rw [hkeys] at hkw hnodup ⊢
    have hknotin : k ∉ rest.map Prod.fst := (List.nodup_cons.mp hnodup).1
    have hndrest : (rest.map Prod.fst).Nodup := (List.nodup_cons.mp hnodup).2
    have hokrest : ∀ p ∈ rest, evalKeyOk fields p.1 p.2 = true :=
      fun q hq => hok q (List.mem_cons_of_mem _ hq)
    have hnd' : (if k ∈ missing then missing.erase k else missing).Nodup := by
      by_cases hk : k ∈ missing
      · simp only [hk, if_true]
        exact hnd.erase k
      · simp only [hk, if_false]
        exact hnd
    have hkw' : ∀ q ∈ (if k ∈ posOnly then kwargs else dictInsert kwargs k r),
        q.1 ∉ rest.map Prod.fst := by
      intro q hq
      by_cases hkp : k ∈ posOnly
      · simp only [hkp, if_true] at hq
        exact fun hmem => hkw q hq (List.mem_cons_of_mem _ hmem)
      · simp only [hkp, if_false] at hq
        rw [dictInsert_fresh kwargs k r
          (fun q' hq' => by
            intro he
            exact hkw q' hq' (he ▸ List.mem_cons_self _ _))] at hq
        rcases List.mem_append.mp hq with hq | hq
        · exact fun hmem => hkw q hq (List.mem_cons_of_mem _ hmem)
        · simp only [List.mem_singleton] at hq
          subst hq
          exact hknotin
    have := ih (if k ∈ posOnly then args ++ [r] else args)
      (if k ∈ posOnly then kwargs else dictInsert kwargs k r)
      (if k ∈ missing then missing.erase k else missing)
      hokrest hnd' hkw' hndrest
    refine Eq.trans (b := evalObjGo fields posOnly rest
      (if k ∈ posOnly then args ++ [r] else args)
      (if k ∈ posOnly then kwargs else dictInsert kwargs k r)
      (if k ∈ missing then missing.erase k else missing)) rfl ?_
    rw [this]
    rw [erase_filter_step missing k (rest.map Prod.fst) hnd]
    by_cases hkp : k ∈ posOnly
    · simp only [hkp, if_true, List.filterMap_cons, hkv]
      split
      · simp [List.append_assoc]
      · rfl
    · have hfresh : dictInsert kwargs k r = kwargs ++ [(k, r)] :=
        dictInsert_fresh kwargs k r (fun q' hq' => by
          intro he
          exact hkw q' hq' (he ▸ List.mem_cons_self _ _))
      simp only [hkp, if_false, List.filterMap_cons, hkv, Option.map_some, hfresh]
      split
      · simp [List.append_assoc]
      · rfl

end Wanga

namespace Wanga

/-- C1 counterexample: the claim passes positional-only parameters "by
position in field declaration order", but `ObjectNode.eval` appends them
in the order their keys appear in the incoming object.  For a constructor
with positional-only parameters `x, y` (declared in that order) and input
`{"y": 2, "x": 1}`, the constructor receives `(2, 1)` — `x` bound to `2`
— not `(1, 2)` as field order would dictate. -/
theorem object_eval_positional_order_cex :
    eval (.objectN (fun args _ => .list args) ["x", "y"] "f"
      [.mk "x" (.primitive .int) Option.none true,
       .mk "y" (.primitive .int) Option.none true] Option.none)
      (.dict [("y", .int 2), ("x", .int 1)]) = .ok (.list [.int 2, .int 1]) ∧
    (Except.ok (PyVal.list [.int 2, .int 1]) : Except Err PyVal) ≠
      .ok (.list [.int 1, .int 2]) := by
  constructor
  · simp [eval, evalObjGo, evalFieldLookup, missingSeed, dedupFirst, dedupFirstGo,
      ObjectField.required, ObjectField.name, pyIsInstance, dictInsert,
      Bind.bind, Except.bind]
  · simp

/-- C1 (amended): for every `ObjectNode` and every JSON value, `eval`
raises `SchemaValidationError` unless the value is a JSON object; it
processes the object's keys in their own order, raising
`SchemaValidationError` at the first key that does not name a declared
field (after the values of the preceding keys evaluated successfully);
after all keys are processed it raises `SchemaValidationError` if some
required field name was never supplied; and otherwise it invokes the
constructor reference exactly once, passing the evaluated values of
positional-only parameters by position *in the order their keys appear in
the input object*, and all remaining supplied parameters by keyword. -/
theorem object_eval_spec (ctor : List PyVal → List (String × PyVal) → PyVal)
    (posOnly : List String) (nm : String) (fields : List ObjectField)
    (hint : Option String) :
    (∀ v : PyVal, (∀ kvs, v ≠ .dict kvs) →
      eval (.objectN ctor posOnly nm fields hint) v = .error (.expectedObject v)) ∧
    (∀ (pre post : List (String × PyVal)) (k : String) (v0 : PyVal),
      (∀ p ∈ pre, evalKeyOk fields p.1 p.2 = true) →
      lookupSchemaLast fields k = Option.none →
      eval (.objectN ctor posOnly nm fields hint) (.dict (pre ++ (k, v0) :: post)) =
        .error (.unexpectedField k)) ∧
    (∀ kvs : List (String × PyVal),
      (∀ p ∈ kvs, evalKeyOk fields p.1 p.2 = true) →
      (kvs.map Prod.fst).Nodup →
      ((missingSeed fields).filter fun m => !((kvs.map Prod.fst).contains m)) ≠ [] →
      eval (.objectN ctor posOnly nm fields hint) (.dict kvs) =
        .error (.missingFields
          ((missingSeed fields).filter fun m => !((kvs.map Prod.fst).contains m)))) ∧
    (∀ kvs : List (String × PyVal),
      (∀ p ∈ kvs, evalKeyOk fields p.1 p.2 = true) →
      (kvs.map Prod.fst).Nodup →
      (∀ m ∈ missingSeed fields, m ∈ kvs.map Prod.fst) →
      eval (.objectN ctor posOnly nm fields hint) (.dict kvs) =
        .ok (ctor
          (kvs.filterMap fun p =>
            if p.1 ∈ posOnly then evalKeyVal fields p.1 p.2 else Option.none)
          (kvs.filterMap fun p =>
            if p.1 ∈ posOnly then Option.none
            else (evalKeyVal fields p.1 p.2).map fun r => (p.1, r)))) := by
  refine ⟨fun v hv => ?_, fun pre post k v0 hok hun => ?_, fun kvs hok hnodup hne => ?_,
    fun kvs hok hnodup hcov => ?_⟩
  · cases v <;>
      first
        | exact absurd rfl (hv _)
        | (rw [eval]
           intro kvs h
           simp at h)
  · rw [eval]
    rw [evalObjGo_unknown_key fields posOnly k v0 post pre [] [] (missingSeed fields) hok hun]
    rfl
  · rw [eval]
    rw [evalObjGo_all_ok fields posOnly kvs [] [] (missingSeed fields) hok
      (missingSeed_nodup fields) (by simp) hnodup]
    have hM : ((missingSeed fields).filter fun m =>
        !((kvs.map Prod.fst).contains m)).isEmpty = false := by
      rw [List.isEmpty_eq_false_iff_exists_mem]
      cases hM : (missingSeed fields).filter fun m => !((kvs.map Prod.fst).contains m) with
      | nil => exact absurd hM hne
      | cons a as => exact ⟨a, hM ▸ List.mem_cons_self a as⟩
    rw [hM]
    rfl
  · rw [eval]
    rw [evalObjGo_all_ok fields posOnly kvs [] [] (missingSeed fields) hok
      (missingSeed_nodup fields) (by simp) hnodup]
    have hM : ((missingSeed fields).filter fun m =>
        !((kvs.map Prod.fst).contains m)).isEmpty = true := by
      rw [List.isEmpty_iff]
      apply List.filter_eq_nil_iff.mpr
      intro m hm
      have hc : (kvs.map Prod.fst).contains m = true :=
        List.elem_eq_true_of_mem (hcov m hm)
      intro hf
      rw [hc] at hf
      simp at hf
    rw [hM]
    simp [Bind.bind, Except.bind]

end Wanga

namespace Wanga

/-- C1 witness: a two-field object (`x` positional-only and required,
`y` required) evaluated on `{"x": 1, "y": "a"}` invokes the constructor
with `x`'s evaluated value positionally and `y`'s by keyword. -/
theorem object_eval_spec_witness :
    eval (.objectN (fun args kwargs => .tuple [.list args, .dict kwargs]) ["x"] "foo"
      [.mk "x" (.primitive .int) Option.none true,
       .mk "y" (.primitive .str) Option.none true] Option.none)
      (.dict [("x", .int 1), ("y", .str "a")]) =
      .ok (.tuple [.list [.int 1], .dict [("y", .str "a")]]) := by
  have h := (object_eval_spec (fun args kwargs => .tuple [.list args, .dict kwargs])
    ["x"] "foo"
    [.mk "x" (.primitive .int) Option.none true,
     .mk "y" (.primitive .str) Option.none true] Option.none).2.2.2
    [("x", .int 1), ("y", .str "a")]
    (by simp [evalKeyOk, evalFieldLookup, eval, pyIsInstance])
    (by simp)
    (by simp [missingSeed, dedupFirst, dedupFirstGo, ObjectField.required, ObjectField.name])
  rw [h]
  simp [evalKeyVal, evalFieldLookup, eval, pyIsInstance]

end Wanga
